import Mathlib

/-!
Verification of the ping-pong-checker repository's reconciliation logic.

The embedding follows `src/main.py` (the reconciliation section of `main`,
lines 94-135, and the `__main__` dispatch, lines 138-149) and
`src/contract.py` (`Contract.get_all_pongs`, lines 156-178).

Transaction hashes are modelled as natural numbers (opaque identifiers with
decidable equality); the findings are the structured observations the code
writes to its logging sink, each carrying the severity level of the logger
call that emits it (`logger.error` / `logger.info`).  Python float division
in the missing-percentage computation is modelled as exact rational
division; the `:.2f` display format is modelled by `roundTo2` (round half
up at the second decimal, which agrees with Python's float formatting at
every value considered here, none of which is a tie).  Python's `set` is
modelled by `List.dedup`; every property proved below depends only on the
membership and cardinality of that set, never on its iteration order, so
the model is insensitive to CPython's hash-based set ordering.
-/

/-- A transaction hash, modelled as an opaque identifier. -/
abbrev Hsh := Nat

/-- A `Ping` event: the code uses only `ping["transactionHash"]`
(src/main.py line 96). -/
structure PingEvent where
  transactionHash : Hsh
deriving DecidableEq

/-- A `Pong` event: the code uses `pong["args"]["txHash"]` (the referenced
ping's hash, src/main.py line 95) and `pong_event.transactionHash` (the
pong's own transaction hash, src/contract.py line 174). -/
structure PongEvent where
  transactionHash : Hsh
  args_txHash : Hsh
deriving DecidableEq

/-- Severity of a logged finding: `logger.info` or `logger.error`. -/
inductive Severity where
  | info
  | error
deriving DecidableEq

/-- The structured findings emitted by the reconciliation section of `main`
(src/main.py lines 98-135), named as in the specification. -/
inductive Finding where
  | countMismatch
  | duplicatePong (raw : Nat) (unique : Nat)
  | noDuplicates
  | orphanPong (h : Hsh)
  | allPongsValid
  | missingPongs (percentage : ℚ) (missing : List Hsh)
deriving DecidableEq

/-- The logger level each finding is emitted at in src/main.py:
`countMismatch` line 100, `duplicatePong` line 106, `noDuplicates` line 113,
`orphanPong` line 122, `allPongsValid` line 126, `missingPongs` lines
130-135.  All mismatch findings use `logger.error`; the two all-clear
findings use `logger.info`. -/
def severity : Finding → Severity
  | .countMismatch => .error
  | .duplicatePong _ _ => .error
  | .noDuplicates => .info
  | .orphanPong _ => .error
  | .allPongsValid => .info
  | .missingPongs _ _ => .error

/-- Rounding of a rational to two decimal places, modelling the `:.2f`
format specifier used at src/main.py line 131. -/
def roundTo2 (q : ℚ) : ℚ := (round (q * 100) : ℚ) / 100

/-- The reconciliation engine: the body of `main` after event fetching
(src/main.py lines 94-135), with the logged messages represented as a list
of findings in emission order.  Local names mirror the Python variables:
`pings_hash_in_pongs` (line 95), `ping_txs` (line 96), the deduplicated
`pings_hash_in_pongs` set (line 116), the `count_of_invalid_pongs` loop
(lines 119-124, here the `invalid` list), `missing_pings` (line 133). -/
def reconcile (all_pings : List PingEvent) (all_pongs : List PongEvent) :
    List Finding :=
  let pings_hash_in_pongs : List Hsh := all_pongs.map PongEvent.args_txHash
  let ping_txs : List Hsh := all_pings.map PingEvent.transactionHash
  let countFindings : List Finding :=
    if all_pongs.length ≠ all_pings.length then [Finding.countMismatch] else []
  let dupFindings : List Finding :=
    if pings_hash_in_pongs.dedup.length ≠ pings_hash_in_pongs.length then
      [Finding.duplicatePong pings_hash_in_pongs.length
        pings_hash_in_pongs.dedup.length]
    else [Finding.noDuplicates]
  let pongSet : List Hsh := pings_hash_in_pongs.dedup
  let invalid : List Hsh := pongSet.filter (fun h => decide (h ∉ ping_txs))
  let orphanFindings : List Finding := invalid.map Finding.orphanPong
  let validFindings : List Finding :=
    if invalid.length = 0 then [Finding.allPongsValid] else []
  let missingFindings : List Finding :=
    if pongSet.length < ping_txs.length then
      [Finding.missingPongs
        ((1 - (pongSet.length : ℚ) / (ping_txs.length : ℚ)) * 100)
        (ping_txs.filter (fun p => decide (p ∉ pongSet)))]
    else []
  countFindings ++ dupFindings ++ orphanFindings ++ validFindings ++
    missingFindings

/-- Recognizer for the missing-pings finding (src/main.py lines 129-135). -/
def isMissingPongs : Finding → Bool
  | .missingPongs _ _ => true
  | _ => false

/-- Recognizer for the outcome of the duplicate check
(src/main.py lines 104-113). -/
def isDuplicateCheckFinding : Finding → Bool
  | .duplicatePong _ _ => true
  | .noDuplicates => true
  | _ => false

/-- `Contract.get_all_pongs` (src/contract.py lines 156-178) after the
underlying log filter returned `pongs_events`: for each event the code looks
up the underlying transaction and keeps the event exactly when
`tx.get("from", "").lower() == address.lower()`.  The chain lookup
`tx.get("from", "")` is modelled by the function `txFrom` applied to the
event's own transaction hash, and Python's `str.lower` by
`String.toLower`. -/
def get_all_pongs (txFrom : Hsh → String) (pongs_events : List PongEvent)
    (address : String) : List PongEvent :=
  pongs_events.filter
    (fun e => (txFrom e.transactionHash).toLower == address.toLower)

/-- Outcome of the `__main__` dispatch in src/main.py lines 138-149: either
print the usage message and exit with the given code, or proceed to run
`main` on the two positional arguments. -/
inductive CLIOutcome where
  | exitWithUsage (code : Nat)
  | runMain (candidate_bot : String) (starting_block_arg : String)
deriving DecidableEq

/-- The `__main__` block of src/main.py (lines 138-149): with `argv`
including the program name, an argument count different from 3 prints the
usage message and exits with code 1; otherwise `main` runs on
`sys.argv[1]` and `sys.argv[2]`. -/
def cliMain (argv : List String) : CLIOutcome :=
  if argv.length ≠ 3 then CLIOutcome.exitWithUsage 1
  else CLIOutcome.runMain (argv.getD 1 "") (argv.getD 2 "")

/-- The count-mismatch finding is in the report exactly when the raw pong
count differs from the raw ping count (src/main.py lines 98-102). -/
theorem mem_reconcile_countMismatch_iff (pings : List PingEvent)
    (pongs : List PongEvent) :
    Finding.countMismatch ∈ reconcile pings pongs ↔
      pongs.length ≠ pings.length := by
  simp only [reconcile]
  split_ifs <;> simp_all [List.mem_filter]

/-- Characterization of the missing-pings finding (src/main.py lines
128-135): it is present exactly when the deduplicated pong hash set is
strictly smaller than the raw ping list, and then records the exact
percentage and the filtered list of uncovered ping hashes. -/
theorem mem_reconcile_missingPongs_iff (pings : List PingEvent)
    (pongs : List PongEvent) (p : ℚ) (m : List Hsh) :
    Finding.missingPongs p m ∈ reconcile pings pongs ↔
      ((pongs.map PongEvent.args_txHash).dedup.length < pings.length ∧
       p = (1 - ((pongs.map PongEvent.args_txHash).dedup.length : ℚ) /
             (pings.length : ℚ)) * 100 ∧
       m = (pings.map PingEvent.transactionHash).filter
             (fun h => decide (h ∉ (pongs.map PongEvent.args_txHash).dedup))) := by
  simp only [reconcile, List.length_map]
  split_ifs <;> simp_all [List.mem_filter, eq_comm]

/-- The all-pongs-valid finding is in the report exactly when every
deduplicated pong ping-hash occurs among the ping transaction hashes
(src/main.py lines 115-126). -/
theorem mem_reconcile_allPongsValid_iff (pings : List PingEvent)
    (pongs : List PongEvent) :
    Finding.allPongsValid ∈ reconcile pings pongs ↔
      ∀ h ∈ (pongs.map PongEvent.args_txHash).dedup,
        h ∈ pings.map PingEvent.transactionHash := by
  simp only [reconcile]
  split_ifs <;>
    simp_all [List.mem_filter, List.length_eq_zero, List.filter_eq_nil_iff]

/-- The orphan-pong finding constructor is injective. -/
theorem orphanPong_injective : Function.Injective Finding.orphanPong := by
  intro a b h
  cases h
  rfl

/-- The report contains exactly one orphan-pong finding for a hash that is a
deduplicated pong ping-hash absent from the ping transaction hashes, and
none for any other hash (src/main.py lines 115-124). -/
theorem count_reconcile_orphanPong (pings : List PingEvent)
    (pongs : List PongEvent) (h : Hsh) :
    (reconcile pings pongs).count (Finding.orphanPong h) =
      if h ∈ (pongs.map PongEvent.args_txHash).dedup ∧
          h ∉ pings.map PingEvent.transactionHash then 1 else 0 := by
  have key : ∀ (l : List Hsh), l.Nodup →
      (l.map Finding.orphanPong).count (Finding.orphanPong h) =
        if h ∈ l then 1 else 0 := by
    intro l hl
    rw [List.count_map_of_injective _ _ orphanPong_injective]
    split_ifs with hm
    · exact List.count_eq_one_of_mem hl hm
    · exact List.count_eq_zero_of_not_mem hm
  have z1 : ∀ (c : Prop) [inst : Decidable c] (f : Finding),
      f ≠ Finding.orphanPong h →
      (if c then [f] else []).count (Finding.orphanPong h) = 0 := by
    intro c _ f hf
    split_ifs <;> simp [List.count_cons, hf]
  have z2 : ∀ (c : Prop) [inst : Decidable c] (f : Finding),
      f ≠ Finding.orphanPong h →
      (if c then [f] else [Finding.noDuplicates]).count (Finding.orphanPong h)
        = 0 := by
    intro c _ f hf
    split_ifs <;> simp [List.count_cons, hf]
  simp only [reconcile]
  rw [List.count_append, List.count_append, List.count_append,
    List.count_append,
    key _ (List.Nodup.filter _ (List.nodup_dedup _)),
    z1 _ _ (by simp), z2 _ _ (by simp), z1 _ _ (by simp)]
  have z3 : ∀ (c : Prop) [inst : Decidable c] (q : ℚ) (ms : List Hsh),
      (if c then [Finding.missingPongs q ms] else []).count
        (Finding.orphanPong h) = 0 := by
    intro c _ q ms
    split_ifs <;> simp [List.count_cons]
  rw [z3]
  simp [List.mem_filter]

/-- The missing-pings findings of a report, isolated by filtering: they
form exactly the guarded singleton of src/main.py lines 129-135. -/
theorem filter_reconcile_missingPongs (pings : List PingEvent)
    (pongs : List PongEvent) :
    (reconcile pings pongs).filter isMissingPongs =
      (if (pongs.map PongEvent.args_txHash).dedup.length < pings.length then
        [Finding.missingPongs
          ((1 - ((pongs.map PongEvent.args_txHash).dedup.length : ℚ) /
            (pings.length : ℚ)) * 100)
          ((pings.map PingEvent.transactionHash).filter
            (fun h => decide (h ∉ (pongs.map PongEvent.args_txHash).dedup)))]
      else []) := by
  simp only [reconcile, List.length_map, List.filter_append]
  split_ifs <;> simp_all [isMissingPongs, List.filter_map, Function.comp]

/-- The duplicate-check findings of a report, isolated by filtering: they
form exactly the two-way branch of src/main.py lines 104-113. -/
theorem filter_reconcile_duplicateCheck (pings : List PingEvent)
    (pongs : List PongEvent) :
    (reconcile pings pongs).filter isDuplicateCheckFinding =
      (if (pongs.map PongEvent.args_txHash).dedup.length ≠ pongs.length then
        [Finding.duplicatePong pongs.length
          (pongs.map PongEvent.args_txHash).dedup.length]
      else [Finding.noDuplicates]) := by
  simp only [reconcile, List.length_map, List.filter_append]
  split_ifs <;>
    simp_all [isDuplicateCheckFinding, List.filter_map, Function.comp]

/-- Membership in the filtered pong list returned by `get_all_pongs`:
exactly the events whose transaction sender equals the candidate address
case-insensitively (src/contract.py lines 172-178). -/
theorem mem_get_all_pongs_iff (txFrom : Hsh → String)
    (pongs_events : List PongEvent) (address : String) (e : PongEvent) :
    e ∈ get_all_pongs txFrom pongs_events address ↔
      e ∈ pongs_events ∧
        (txFrom e.transactionHash).toLower = address.toLower := by
  simp [get_all_pongs, List.mem_filter]

/-- Multiplicity preservation for `get_all_pongs`: matching events are kept
with their multiplicity, non-matching events are dropped entirely. -/
theorem count_get_all_pongs (txFrom : Hsh → String)
    (pongs_events : List PongEvent) (address : String) (e : PongEvent) :
    (get_all_pongs txFrom pongs_events address).count e =
      if (txFrom e.transactionHash).toLower = address.toLower then
        pongs_events.count e
      else 0 := by
  split_ifs with hp
  · rw [get_all_pongs, List.count_filter (by simp [hp])]
  · rw [get_all_pongs, List.count_eq_zero]
    intro hmem
    rw [List.mem_filter] at hmem
    exact hp (by simpa using hmem.2)

/-- C1: for pings = [A, B, C] (three distinct hashes) and pongs both
referencing A, the findings are exactly CountMismatch,
DuplicatePong(raw 2, unique 1), AllPongsValid, and MissingPongs with
percentage (1 - 1/3) * 100 (displayed as 66.67 by the two-decimal format)
and missing list [B, C]. -/
theorem C1_example_findings :
    reconcile [⟨1⟩, ⟨2⟩, ⟨3⟩] [⟨10, 1⟩, ⟨11, 1⟩] =
      [Finding.countMismatch, Finding.duplicatePong 2 1,
       Finding.allPongsValid,
       Finding.missingPongs ((1 - 1/3) * 100) [2, 3]] ∧
    roundTo2 ((1 - 1/3) * 100) = 6667 / 100 := by
  constructor
  · simp [reconcile, List.dedup]
  · have h1 : ((1 - 1/3 : ℚ) * 100) * 100 = 20000 / 3 := by norm_num
    have h2 : round ((20000 : ℚ) / 3) = 6667 := by
      rw [round_eq, Int.floor_eq_iff]
      constructor <;> norm_num
    rw [roundTo2, h1, h2]
    norm_num

/-- C2 counterexample: for pings = [A] and pongs = [{ping_tx_hash: Z}] with
Z not a ping hash, the findings are exactly NoDuplicates and OrphanPong(Z);
in particular the MissingPongs(100.00, [A]) finding the claim asserts is
absent, because the orphan hash Z keeps the deduplicated pong-hash count
equal to the ping count so the missing-check guard at src/main.py line 129
is false. -/
theorem C2_counterexample :
    reconcile [⟨1⟩] [⟨10, 99⟩] =
      [Finding.noDuplicates, Finding.orphanPong 99] ∧
    Finding.missingPongs (100 : ℚ) [1] ∉ reconcile [⟨1⟩] [⟨10, 99⟩] := by
  have hres : reconcile [⟨1⟩] [⟨10, 99⟩] =
      [Finding.noDuplicates, Finding.orphanPong 99] := by
    simp [reconcile, List.dedup]
  refine ⟨hres, ?_⟩
  rw [hres]
  simp

/-- C2 as amended: for pings = [A] and pongs = [{ping_tx_hash: Z}] with Z
distinct from A, the emitted findings are exactly NoDuplicates and
OrphanPong(Z); no MissingPongs finding is emitted. -/
theorem C2_amended_findings :
    reconcile [⟨1⟩] [⟨10, 99⟩] =
      [Finding.noDuplicates, Finding.orphanPong 99] := by
  simp [reconcile, List.dedup]

/-- C3 counterexample: for pings = [A, A] and pongs = [{ping_tx_hash: A}],
the number of distinct pong ping-hashes (1) equals the number of distinct
ping hashes (1), so the claim says no MissingPongs is emitted; the code
nevertheless emits MissingPongs with percentage (1 - 1/2) * 100 = 50 and an
empty missing list, because its guard and denominator use the raw ping list
length 2, not the distinct count. -/
theorem C3_counterexample :
    Finding.missingPongs ((1 - 1/2) * 100) [] ∈
      reconcile [⟨1⟩, ⟨1⟩] [⟨10, 1⟩] ∧
    (([⟨10, 1⟩] : List PongEvent).map PongEvent.args_txHash).dedup.length =
      (([⟨1⟩, ⟨1⟩] : List PingEvent).map
        PingEvent.transactionHash).dedup.length := by
  constructor
  · simp [reconcile, List.dedup]
  · decide

/-- C3 as amended: reconcile emits MissingPongs exactly when the number of
distinct pong ping-hashes is strictly smaller than the raw length of the
pings sequence; the finding then carries percentage
(1 - |dedupedPongPingHashes| / |pings|) * 100 with the raw ping count as
denominator, and as missing list the entries of the ping-hash list (in
input order, with multiplicity) that are not among the deduplicated pong
ping-hashes. -/
theorem C3_missing_check (pings : List PingEvent) (pongs : List PongEvent) :
    (reconcile pings pongs).filter isMissingPongs =
      (if (pongs.map PongEvent.args_txHash).dedup.length < pings.length then
        [Finding.missingPongs
          ((1 - ((pongs.map PongEvent.args_txHash).dedup.length : ℚ) /
            (pings.length : ℚ)) * 100)
          ((pings.map PingEvent.transactionHash).filter
            (fun h => decide (h ∉ (pongs.map PongEvent.args_txHash).dedup)))]
      else []) :=
  filter_reconcile_missingPongs pings pongs

/-- C4: the duplicate check emits DuplicatePong with the raw and unique
counts exactly when the deduplicated pong ping-hash list is shorter than
the raw one, and NoDuplicates otherwise; with exactly one duplicate
(unique count one less than raw), the reported counts are |pongs| and
|pongs| - 1. -/
theorem C4_duplicate_check (pings : List PingEvent) (pongs : List PongEvent) :
    ((reconcile pings pongs).filter isDuplicateCheckFinding =
      (if (pongs.map PongEvent.args_txHash).dedup.length ≠ pongs.length then
        [Finding.duplicatePong pongs.length
          (pongs.map PongEvent.args_txHash).dedup.length]
      else [Finding.noDuplicates])) ∧
    ((pongs.map PongEvent.args_txHash).dedup.length + 1 = pongs.length →
      Finding.duplicatePong pongs.length (pongs.length - 1) ∈
        reconcile pings pongs) := by
  refine ⟨filter_reconcile_duplicateCheck pings pongs, fun h => ?_⟩
  have hne : (pongs.map PongEvent.args_txHash).dedup.length ≠
      (pongs.map PongEvent.args_txHash).length := by
    rw [List.length_map]
    omega
  have hu : (pongs.map PongEvent.args_txHash).dedup.length =
      pongs.length - 1 := by omega
  simp only [reconcile, List.mem_append]
  refine Or.inl (Or.inl (Or.inl (Or.inr ?_)))
  rw [if_pos hne]
  simp [List.length_map, hu]

/-- Witness for C4: with two pong events both referencing hash 5, there is
exactly one duplicate and the report contains DuplicatePong 2 1. -/
theorem C4_duplicate_check_witness :
    (([⟨10, 5⟩, ⟨11, 5⟩] : List PongEvent).map
        PongEvent.args_txHash).dedup.length + 1 = 2 ∧
    Finding.duplicatePong 2 1 ∈ reconcile [] [⟨10, 5⟩, ⟨11, 5⟩] :=
  ⟨by decide, (C4_duplicate_check [] [⟨10, 5⟩, ⟨11, 5⟩]).2 (by decide)⟩

/-- C5: the report contains exactly one OrphanPong(h) for each distinct
pong ping-hash h that matches no ping transaction hash (and none for any
other hash, however often h occurs among the pongs), and AllPongsValid is
present exactly when no such orphan hash exists. -/
theorem C5_orphan_check (pings : List PingEvent) (pongs : List PongEvent) :
    (∀ h : Hsh,
      (reconcile pings pongs).count (Finding.orphanPong h) =
        if h ∈ (pongs.map PongEvent.args_txHash).dedup ∧
            h ∉ pings.map PingEvent.transactionHash then 1 else 0) ∧
    (Finding.allPongsValid ∈ reconcile pings pongs ↔
      ∀ h ∈ (pongs.map PongEvent.args_txHash).dedup,
        h ∈ pings.map PingEvent.transactionHash) :=
  ⟨fun h => count_reconcile_orphanPong pings pongs h,
   mem_reconcile_allPongsValid_iff pings pongs⟩

/-- C6 counterexample: at pings = [A], pongs = [], the report contains
CountMismatch, and that finding carries error severity (it is emitted by
`logger.error` at src/main.py line 100), not informational severity as the
claim states. -/
theorem C6_counterexample :
    Finding.countMismatch ∈ reconcile [⟨1⟩] [] ∧
    severity Finding.countMismatch = Severity.error ∧
    severity Finding.countMismatch ≠ Severity.info := by
  refine ⟨?_, rfl, by decide⟩
  simp [reconcile, List.dedup]

/-- C6 as amended: CountMismatch is in the report exactly when the pong
count differs from the ping count, and the finding carries error severity
(the code logs it with `logger.error`). -/
theorem C6_count_check (pings : List PingEvent) (pongs : List PongEvent) :
    (Finding.countMismatch ∈ reconcile pings pongs ↔
      pongs.length ≠ pings.length) ∧
    severity Finding.countMismatch = Severity.error :=
  ⟨mem_reconcile_countMismatch_iff pings pongs, rfl⟩

/-- C7: reconcile is deterministic and stateless; two calls on equal input
sequences produce identical findings with identical severities in
identical order.  In this shallow embedding reconcile is a pure function of
its two arguments, so the property holds by congruence. -/
theorem C7_deterministic (pings pings' : List PingEvent)
    (pongs pongs' : List PongEvent) (h1 : pings = pings')
    (h2 : pongs = pongs') :
    reconcile pings pongs = reconcile pings' pongs' ∧
    (reconcile pings pongs).map severity =
      (reconcile pings' pongs').map severity := by
  subst h1
  subst h2
  exact ⟨rfl, rfl⟩

/-- Witness for C7 at a concrete input pair. -/
theorem C7_deterministic_witness :
    ([⟨1⟩] : List PingEvent) = [⟨1⟩] ∧
    reconcile [⟨1⟩] ([] : List PongEvent) = reconcile [⟨1⟩] [] :=
  ⟨rfl, (C7_deterministic [⟨1⟩] [⟨1⟩] [] [] rfl rfl).1⟩

/-- C8: get_all_pongs returns exactly the pong events whose underlying
transaction sender equals the candidate address case-insensitively --
membership holds precisely for those events, and their multiplicity is
preserved while every other sender's events are dropped
(src/contract.py lines 156-178). -/
theorem C8_sender_filter (txFrom : Hsh → String)
    (pongs_events : List PongEvent) (address : String) (e : PongEvent) :
    (e ∈ get_all_pongs txFrom pongs_events address ↔
      e ∈ pongs_events ∧
        (txFrom e.transactionHash).toLower = address.toLower) ∧
    (get_all_pongs txFrom pongs_events address).count e =
      (if (txFrom e.transactionHash).toLower = address.toLower then
        pongs_events.count e
      else 0) :=
  ⟨mem_get_all_pongs_iff txFrom pongs_events address e,
   count_get_all_pongs txFrom pongs_events address e⟩

/-- C9: the division in the missing-percentage computation runs only under
the guard of src/main.py line 129, which forces the ping list to be
non-empty; hence whenever a MissingPongs finding is emitted the denominator
is positive, and for an empty pings sequence (with arbitrary pongs) the
missing branch is unreachable, so no division by zero can occur. -/
theorem C9_no_division_by_zero (pings : List PingEvent)
    (pongs : List PongEvent) (p : ℚ) (m : List Hsh)
    (hmem : Finding.missingPongs p m ∈ reconcile pings pongs) :
    0 < pings.length := by
  have h := (mem_reconcile_missingPongs_iff pings pongs p m).1 hmem
  omega

/-- Witness for C9: a concrete input whose report contains a MissingPongs
finding, so the theorem's hypothesis is satisfiable. -/
theorem C9_no_division_by_zero_witness :
    Finding.missingPongs ((1 - 1/2) * 100) [2] ∈
      reconcile [⟨1⟩, ⟨2⟩] [⟨10, 1⟩] ∧
    0 < ([⟨1⟩, ⟨2⟩] : List PingEvent).length := by
  have hmem : Finding.missingPongs ((1 - 1/2) * 100) [2] ∈
      reconcile [⟨1⟩, ⟨2⟩] [⟨10, 1⟩] := by
    simp [reconcile, List.dedup]
  exact ⟨hmem, C9_no_division_by_zero [⟨1⟩, ⟨2⟩] [⟨10, 1⟩] _ _ hmem⟩

/-- C10: invoked with an argument count other than exactly two positional
arguments (argv length other than 3, counting the program name), the CLI
prints the usage message and exits with code 1 without running the
reconciliation (src/main.py lines 138-141). -/
theorem C10_usage_exit (argv : List String) (h : argv.length ≠ 3) :
    cliMain argv = CLIOutcome.exitWithUsage 1 := by
  simp [cliMain, h]

/-- Witness for C10: invoking with no positional arguments at all exits
with usage code 1. -/
theorem C10_usage_exit_witness :
    (["main.py"] : List String).length ≠ 3 ∧
    cliMain ["main.py"] = CLIOutcome.exitWithUsage 1 :=
  ⟨by decide, C10_usage_exit ["main.py"] (by decide)⟩
